import Mathlib

/-!
Shallow embedding of the YakirOS graph-resolver core (capability registry,
component state machine, health and readiness monitors, cycle detection,
checkpoint metadata, handoff protocol, kexec kernel validation), translated
from the C sources under src/, together with theorems settling the spec
claims.

Conventions of the embedding:
* C strings are Lean `String`s; the fixed-size buffer truncation of
  `strncpy` (MAX_NAME, MAX_PATH) is not modelled, names are assumed to fit.
* `pid_t` and `time_t` are `Int`; a pid is "set" when it is positive, the
  code stores `-1` (or `0` for the synthetic kernel component) for "none".
* Side effects on the world (fork, kill, cgroups, logging) are modelled as
  explicit data: functions return the updated record plus, where a claim
  needs it, the list of pids that were sent SIGTERM.
-/

namespace Yakiros

/-! Capability registry (src/src/capability.h, src/src/capability.c) -/

/-- MAX_CAPABILITIES from capability.h. -/
def MAX_CAPABILITIES : Nat := 512

/-- One registry entry, `capability_t` from capability.h: `name`, `active`
and `provider_idx` are the three fields of the struct in src.  The
`degraded` field is Modelled from the spec: the per-capability degraded
flag of spec section 4.1 (`mark_degraded(name, bool)` toggles the flag); its
definition (and the `capability_mark_degraded` accessor) is missing from
src/src/capability.{h,c} although src/src/component.c and src/src/control.c
call it.  New entries start with the flag clear (the registry array is
zero-initialised). -/
structure Capability where
  name : String
  active : Bool
  provider_idx : Int
  degraded : Bool
deriving Repr, DecidableEq

instance : Inhabited Capability :=
  ⟨{ name := "", active := false, provider_idx := -1, degraded := false }⟩

/-- The capability registry: the global `capabilities` array together with
`n_capabilities`, kept in insertion order. -/
structure Registry where
  caps : List Capability
deriving Repr, DecidableEq

/-- The C function `capability_init`: empty registry. -/
def capability_init : Registry := ⟨[]⟩

/-- The C function `capability_index`: first index whose name matches, `none` for the C
return value `-1`. -/
def capability_index (reg : Registry) (name : String) : Option Nat :=
  reg.caps.findIdx? (fun c => c.name == name)

/-- The C function `capability_active(name)`: found and its `active` field is set. -/
def capability_active (reg : Registry) (name : String) : Bool :=
  match capability_index reg name with
  | some i => (reg.caps.getD i default).active
  | none => false

/-- The C function `capability_register(name, provider_idx)`: update the existing entry in
place, or append a fresh one unless the MAX_CAPABILITIES bound is hit (in
which case the registration is dropped, the C logs an error). -/
def capability_register (reg : Registry) (name : String) (provider_idx : Int) :
    Registry :=
  match capability_index reg name with
  | some i =>
      let c := reg.caps.getD i default
      ⟨reg.caps.set i { c with active := true, provider_idx := provider_idx }⟩
  | none =>
      if reg.caps.length ≥ MAX_CAPABILITIES then reg
      else ⟨reg.caps ++ [{ name := name, active := true,
                           provider_idx := provider_idx, degraded := false }]⟩

/-- The C function `capability_withdraw(name)`: clear `active` on the named entry; unknown
names are a no-op (the entry remains). -/
def capability_withdraw (reg : Registry) (name : String) : Registry :=
  match capability_index reg name with
  | some i =>
      let c := reg.caps.getD i default
      ⟨reg.caps.set i { c with active := false }⟩
  | none => reg

/-- Modelled from the spec: `capability_mark_degraded(name, bool)` of spec
section 4.1 toggles the degraded flag on the named capability; the function
is called from src/src/component.c (handle_health_result) but its
definition is missing from src/src/capability.c.  Like `withdraw`, it acts
on the first entry with the given name and leaves unknown names alone. -/
def capability_mark_degraded (reg : Registry) (name : String) (b : Bool) :
    Registry :=
  match capability_index reg name with
  | some i =>
      let c := reg.caps.getD i default
      ⟨reg.caps.set i { c with degraded := b }⟩
  | none => reg

/-- Modelled from the spec: read accessor for the degraded flag (the
`capability_degraded_by_idx` lookup used by src/src/control.c is missing
from src/src/capability.c), here keyed by name like `capability_active`. -/
def capability_degraded (reg : Registry) (name : String) : Bool :=
  match capability_index reg name with
  | some i => (reg.caps.getD i default).degraded
  | none => false

/-! Component records (src/src/toml.h, src/src/component.h) -/

/-- The C type `comp_state_t` from toml.h. -/
inductive CompState
  | inactive | starting | readyWait | active | degraded | failed | oneshotDone
deriving Repr, DecidableEq

/-- The C type `comp_type_t` from toml.h. -/
inductive CompType
  | service | oneshot
deriving Repr, DecidableEq

/-- The C type `readiness_method_t` from toml.h. -/
inductive ReadinessMethod
  | readinessNone | readinessFile | readinessSignal | readinessCommand
deriving Repr, DecidableEq

/-- The fields of `component_t` (toml.h) that the modelled operations
touch.  Declarative fields first, then the runtime fields. -/
structure Component where
  name : String
  type : CompType
  requires : List String
  provides : List String
  readiness_method : ReadinessMethod
  readiness_timeout : Int
  health_fail_threshold : Int
  health_restart_threshold : Int
  state : CompState
  pid : Int
  restart_count : Int
  last_restart : Int
  ready_wait_start : Int
  health_consecutive_failures : Int
  last_health_check : Int
  last_health_result : Int
deriving Repr, DecidableEq

/-- The C function `requirements_met` (component.c): every required capability active. -/
def requirements_met (reg : Registry) (comp : Component) : Bool :=
  comp.requires.all (fun r => capability_active reg r)

/-- The C function `check_readiness_timeout` (component.c lines 46..67): in READY_WAIT,
once `now - ready_wait_start` reaches the declared timeout (default 30s)
mark FAILED and SIGTERM the pid if it is still recorded.  Returns the
updated component and the list of pids signalled.  Note the pid field
itself is left untouched. -/
def check_readiness_timeout (now : Int) (comp : Component) :
    Component × List Int :=
  if comp.state ≠ CompState.readyWait then (comp, [])
  else
    let timeout : Int :=
      if comp.readiness_timeout > 0 then comp.readiness_timeout else 30
    if now - comp.ready_wait_start ≥ timeout then
      ({ comp with state := CompState.failed },
       if comp.pid > 0 then [comp.pid] else [])
    else (comp, [])

/-- The C function `component_ready` (component.c lines 70..93): outside READY_WAIT the
call only logs a warning; in READY_WAIT it moves to ACTIVE and registers
the provided capabilities for service-type components. -/
def component_ready (idx : Int) (comp : Component) (reg : Registry) :
    Component × Registry :=
  if comp.state ≠ CompState.readyWait then (comp, reg)
  else
    let comp' := { comp with state := CompState.active }
    let reg' :=
      if comp.type = CompType.service then
        comp.provides.foldl (fun r cap => capability_register r cap idx) reg
      else reg
    (comp', reg')

/-- Outcome of `component_start`: `-1` for the rate-limit refusal, `-1`
for fork failure, `0` for a successful start. -/
inductive StartResult
  | rateLimited | forkFailed | started
deriving Repr, DecidableEq

/-- The C function `component_start` (component.c lines 166..287).  `forkPid` stands for
the result of `fork()` (`none` = failure).  On success the parent records
the child pid, bumps the restart bookkeeping, passes through STARTING and
lands in ACTIVE (no readiness declared; service capabilities registered
immediately) or READY_WAIT (readiness declared). -/
def component_start (now : Int) (forkPid : Option Int) (idx : Int)
    (comp : Component) (reg : Registry) :
    Component × Registry × StartResult :=
  if now - comp.last_restart < 30 ∧ comp.restart_count ≥ 5 then
    (comp, reg, StartResult.rateLimited)
  else
    match forkPid with
    | none => (comp, reg, StartResult.forkFailed)
    | some p =>
        let c1 := { comp with
                      pid := p, state := CompState.starting,
                      restart_count := comp.restart_count + 1,
                      last_restart := now }
        if comp.readiness_method = ReadinessMethod.readinessNone then
          let c2 := { c1 with state := CompState.active }
          let reg' :=
            if comp.type = CompType.service then
              comp.provides.foldl (fun r cap => capability_register r cap idx)
                reg
            else reg
          (c2, reg', StartResult.started)
        else
          (({ c1 with
                state := CompState.readyWait, ready_wait_start := now }),
           reg, StartResult.started)

/-- Exit status as seen by the supervisor: `WIFEXITED` and the
`WEXITSTATUS` code. -/
structure ExitStatus where
  ifexited : Bool
  code : Int
deriving Repr, DecidableEq

/-- The C function `component_exited` (component.c lines 289..331): oneshot successes
reach ONESHOT_DONE and register their capabilities (pid untouched);
oneshot failures reach FAILED (pid untouched); an exiting service always
reaches FAILED with the pid cleared and its capabilities withdrawn. -/
def component_exited (idx : Int) (st : ExitStatus) (comp : Component)
    (reg : Registry) : Component × Registry :=
  if comp.type = CompType.oneshot then
    if st.ifexited ∧ st.code = 0 then
      ({ comp with state := CompState.oneshotDone },
       comp.provides.foldl (fun r cap => capability_register r cap idx) reg)
    else
      ({ comp with state := CompState.failed }, reg)
  else
    ({ comp with state := CompState.failed, pid := -1 },
     comp.provides.foldl (fun r cap => capability_withdraw r cap) reg)

/-- The C function `handle_health_result` (component.c lines 1171..1232).  `result` is the
value of `execute_health_check`: `0` pass, `1` failure, `2` timeout (the
code only distinguishes zero from nonzero).  Returns the updated component
and registry plus the pids sent SIGTERM. -/
def handle_health_result (now : Int) (result : Int) (comp : Component)
    (reg : Registry) : Component × Registry × List Int :=
  let comp := { comp with
                  last_health_check := now, last_health_result := result }
  if result = 0 then
    if comp.state = CompState.degraded then
      ({ comp with
           state := CompState.active, health_consecutive_failures := 0 },
       comp.provides.foldl (fun r cap => capability_mark_degraded r cap false)
         reg,
       [])
    else
      ({ comp with health_consecutive_failures := 0 }, reg, [])
  else
    let comp := { comp with
                    health_consecutive_failures :=
                      comp.health_consecutive_failures + 1 }
    if comp.state = CompState.active then
      if comp.health_consecutive_failures ≥ comp.health_fail_threshold then
        ({ comp with state := CompState.degraded },
         comp.provides.foldl (fun r cap => capability_mark_degraded r cap true)
           reg,
         [])
      else (comp, reg, [])
    else if comp.state = CompState.degraded then
      if comp.health_consecutive_failures ≥ comp.health_restart_threshold then
        let kills := if comp.pid > 0 then [comp.pid] else []
        ({ comp with
             state := CompState.failed, pid := -1,
             health_consecutive_failures := 0 },
         comp.provides.foldl (fun r cap => capability_withdraw r cap) reg,
         kills)
      else (comp, reg, [])
    else (comp, reg, [])

/-! Graph resolver pass (src/src/graph.c, graph_resolve) -/

/-- One `graph_resolve` switch iteration for a single component
(graph.c lines 20..71): the READY_WAIT and ACTIVE arms handle lost
requirements (state to FAILED, pid untouched), the FAILED arm cools off
for 5 seconds before flipping back to INACTIVE.  The INACTIVE arm calls
`component_start`; `forkPid` feeds that call.  Returns the updated
component, registry, signalled pids and whether the pass counted a
change. -/
def graph_resolve_comp (now : Int) (forkPid : Option Int) (idx : Int)
    (comp : Component) (reg : Registry) :
    Component × Registry × List Int × Bool :=
  match comp.state with
  | CompState.inactive =>
      if requirements_met reg comp then
        let (c', reg', res) := component_start now forkPid idx comp reg
        (c', reg', [], res = StartResult.started)
      else (comp, reg, [], false)
  | CompState.readyWait =>
      if ¬ requirements_met reg comp then
        ({ comp with state := CompState.failed }, reg,
         if comp.pid > 0 then [comp.pid] else [], true)
      else (comp, reg, [], false)
  | CompState.active =>
      if ¬ requirements_met reg comp then
        ({ comp with state := CompState.failed },
         comp.provides.foldl (fun r cap => capability_withdraw r cap) reg,
         [], true)
      else (comp, reg, [], false)
  | CompState.failed =>
      if requirements_met reg comp ∧ now - comp.last_restart ≥ 5 then
        ({ comp with state := CompState.inactive }, reg, [], true)
      else (comp, reg, [], false)
  | _ => (comp, reg, [], false)

/-! Cycle detection (src/src/graph.c lines 98..275)

`build_dependency_graph` fills an n x n adjacency matrix: entry (i, j) is
set exactly when some capability required by component i appears in the
provides list of component j.  `dfs_cycle_detect` is a three-colour DFS;
we embed its recursion with an explicit fuel argument so that every
definition is structurally recursive (the C recursion is bounded by the
number of components; the fuel only limits nesting depth of `dfsVisit`
and the theorems below do not depend on it running out or not). -/

/-- The C type `dfs_color_t`. -/
inductive DfsColor
  | white | gray | black
deriving Repr, DecidableEq

/-- Adjacency of the induced dependency graph, as built by
`build_dependency_graph`: i depends on j when some required capability of
i is provided by j (self edges included). -/
def dependsOn (comps : List Component) (i j : Nat) : Bool :=
  match comps.get? i, comps.get? j with
  | some a, some b => a.requires.any (fun r => b.provides.contains r)
  | _, _ => false

/-- Result of a DFS call: the colour array after the call and the cycle
report when a back edge was found (`cycle_info.cycle_components`). -/
structure DfsResult where
  colors : List DfsColor
  cycle : Option (List Nat)
deriving Repr, DecidableEq

/-- The cycle report built at a back edge (graph.c lines 161..195): scan
the current DFS stack for the first entry of the back-edge target `j`,
keep the stack from there on and append the closing vertex; if the target
is not on the stack the report stays empty (cycle_start = -1). -/
def cycleReport (path : List Nat) (j : Nat) : List Nat :=
  match path.indexOf? j with
  | some k => path.drop k ++ [j]
  | none => []

/-- The inner `for (j = 0; ...)` loop of `dfs_cycle_detect` for node `i`:
on an edge to a gray node report the cycle, recurse into white nodes
(propagating a found cycle), skip black nodes; at loop end paint `i`
black.  `visit` is the recursive entry (tied below in `dfsVisit`). -/
def dfsLoop (visit : Nat → List DfsColor → List Nat → DfsResult)
    (adj : Nat → Nat → Bool) (i : Nat) (js : List Nat)
    (colors : List DfsColor) (path : List Nat) : DfsResult :=
  match js with
  | [] => { colors := colors.set i DfsColor.black, cycle := none }
  | j :: rest =>
      if adj i j then
        match colors.getD j DfsColor.black with
        | DfsColor.gray => { colors := colors, cycle := some (cycleReport path j) }
        | DfsColor.white =>
            let r := visit j colors path
            match r.cycle with
            | some _ => r
            | none => dfsLoop visit adj i rest r.colors path
        | DfsColor.black => dfsLoop visit adj i rest colors path
      else dfsLoop visit adj i rest colors path

/-- The C function `dfs_cycle_detect` entry for node `i`: paint `i` gray, push it on the
stack, and run the loop over all candidate targets `0..n-1` (the colour
array has length n throughout). -/
def dfsVisit (adj : Nat → Nat → Bool) :
    Nat → Nat → List DfsColor → List Nat → DfsResult
  | 0, _, colors, _ => { colors := colors, cycle := none }
  | fuel + 1, i, colors, path =>
      dfsLoop (dfsVisit adj fuel) adj i (List.range colors.length)
        (colors.set i DfsColor.gray) (path ++ [i])

/-- Top loop of `graph_detect_cycles` (graph.c lines 254..266): run the
DFS from every still-white component, returning the first cycle found. -/
def detectFrom (adj : Nat → Nat → Bool) (fuel : Nat) :
    List Nat → List DfsColor → Option (List Nat)
  | [], _ => none
  | i :: rest, colors =>
      match colors.getD i DfsColor.black with
      | DfsColor.white =>
          let r := dfsVisit adj fuel i colors []
          match r.cycle with
          | some c => some c
          | none => detectFrom adj fuel rest r.colors
      | _ => detectFrom adj fuel rest colors

/-- The C function `graph_detect_cycles`: `none` when the table is empty or no back edge
is found, otherwise the cycle report of the first back edge. -/
def graph_detect_cycles (comps : List Component) : Option (List Nat) :=
  let n := comps.length
  if n = 0 then none
  else detectFrom (dependsOn comps) (n + 1) (List.range n)
      (List.replicate n DfsColor.white)

/-! Checkpoint metadata sidecar (src/src/checkpoint-mgmt.c lines 23..258)

The sidecar is written and read line by line (`fprintf` / `fgets`), so the
file is modelled as a `List String` of lines.  The loader's `sscanf`
formats are modelled as small character-list parsers with the same
matching behaviour: a leading whitespace skip, literal quotes/colon, a
non-empty scan set `%[^"]` for strings, and an optional sign plus a
non-empty digit run for `%d` / `%ld` (the 127/383-character caps of the
scan sets and the int width are not modelled; all inputs considered stay
far below them). -/

/-- The C type `criu_version_t`: the engine version triple. -/
structure CriuVersion where
  major : Int
  minor : Int
  patch : Int
deriving Repr, DecidableEq

/-- The C type `checkpoint_metadata_t` (checkpoint-mgmt.h): the fields carried by the
metadata sidecar. -/
structure CheckpointMetadata where
  component_name : String
  original_pid : Int
  timestamp : Int
  image_size : Int
  capabilities : String
  criu_version : CriuVersion
  leave_running : Int
  preserve_fds : String
deriving Repr, DecidableEq

/-- The zeroed record produced by `memset(metadata, 0, ...)` before
parsing. -/
def zeroMetadata : CheckpointMetadata :=
  { component_name := "", original_pid := 0, timestamp := 0, image_size := 0,
    capabilities := "", criu_version := ⟨0, 0, 0⟩, leave_running := 0,
    preserve_fds := "" }

/-- The C function `write_json_string`: one line of the form `  "key": "value",`. -/
def write_json_string (key value : String) (last : Bool) : String :=
  "  \"" ++ key ++ "\": \"" ++ value ++ "\"" ++ (if last then "" else ",")

/-- The C function `write_json_int` (also used for `write_json_time`: the `%d` and `%ld`
output formats agree on in-range values): `  "key": 123,`. -/
def write_json_int (key : String) (value : Int) (last : Bool) : String :=
  "  \"" ++ key ++ "\": " ++ toString value ++ (if last then "" else ",")

/-- The C function `checkpoint_save_metadata` (lines 159..194): the exact line sequence
written to metadata.json. -/
def checkpoint_save_metadata (m : CheckpointMetadata) : List String :=
  [ "\x7b",
    write_json_string "component_name" m.component_name false,
    write_json_int "original_pid" m.original_pid false,
    write_json_int "timestamp" m.timestamp false,
    write_json_int "image_size" m.image_size false,
    write_json_string "capabilities" m.capabilities false,
    "  \"criu_version\": \x7b",
    write_json_int "major" m.criu_version.major false,
    write_json_int "minor" m.criu_version.minor false,
    write_json_int "patch" m.criu_version.patch true,
    "  \x7d,",
    write_json_int "leave_running" m.leave_running false,
    write_json_string "preserve_fds" m.preserve_fds true,
    "\x7d" ]

/-- Whitespace skip of an sscanf `' '` directive. -/
def skipSpaces : List Char → List Char
  | [] => []
  | c :: rest => if c.isWhitespace then skipSpaces rest else c :: rest

/-- The shared key part of all three loader formats: whitespace, `"`, a
non-empty run of non-quote characters, `"`, `:`.  Returns the key and the
rest of the line. -/
def parseKey (cs : List Char) : Option (String × List Char) :=
  match skipSpaces cs with
  | '"' :: cs' =>
      let key := cs'.takeWhile (fun c => c ≠ '"')
      let rest := cs'.dropWhile (fun c => c ≠ '"')
      if key.isEmpty then none
      else
        match rest with
        | '"' :: ':' :: rest' => some (key.asString, rest')
        | _ => none
  | _ => none

/-- Loader format `" \"%127[^\"]\": \"%383[^\"]\""`: succeeds (returns 2)
exactly when the key part matches and a quoted non-empty value follows;
anything after the value is ignored (both conversions are assigned by
then). -/
def parseStringLine (cs : List Char) : Option (String × String) :=
  match parseKey cs with
  | none => none
  | some (key, rest) =>
      match skipSpaces rest with
      | '"' :: rest' =>
          let val := rest'.takeWhile (fun c => c ≠ '"')
          if val.isEmpty then none else some (key, val.asString)
      | _ => none

/-- A `%d` / `%ld` conversion: optional sign then a non-empty digit run
(`sscanf` skips leading whitespace for numeric conversions). -/
def parseNum (cs : List Char) : Option Int :=
  let readDigits : List Char → Option Int := fun ds =>
    let digits := ds.takeWhile Char.isDigit
    if digits.isEmpty then none
    else some (digits.foldl (fun acc c => acc * 10 + (c.toNat - '0'.toNat)) 0)
  match skipSpaces cs with
  | '-' :: rest => (readDigits rest).map (fun n => -n)
  | '+' :: rest => readDigits rest
  | rest => readDigits rest

/-- Loader formats `" \"%127[^\"]\": %d"` and `" \"%127[^\"]\": %ld"`:
identical matching behaviour (the int width is not modelled), so one
parser serves both branches. -/
def parseNumLine (cs : List Char) : Option (String × Int) :=
  match parseKey cs with
  | none => none
  | some (key, rest) => (parseNum rest).map (fun n => (key, n))

/-- One iteration of the `fgets` loop of `checkpoint_load_metadata`
(lines 215..252): try the quoted-string format and dispatch on the key;
otherwise try the `%d` format and dispatch on the key (note: `timestamp`
is not among its keys); otherwise try the `%ld` format, which stores into
`metadata->timestamp` whatever the key is.  Because the `%d` branch
matches every line the `%ld` branch would match, the timestamp branch is
dead code — faithfully reproduced here. -/
def loadLine (m : CheckpointMetadata) (line : String) : CheckpointMetadata :=
  match parseStringLine line.toList with
  | some (k, v) =>
      if k = "component_name" then { m with component_name := v }
      else if k = "capabilities" then { m with capabilities := v }
      else if k = "preserve_fds" then { m with preserve_fds := v }
      else m
  | none =>
      match parseNumLine line.toList with
      | some (k, n) =>
          if k = "original_pid" then { m with original_pid := n }
          else if k = "image_size" then { m with image_size := n }
          else if k = "leave_running" then { m with leave_running := n }
          else if k = "major" then
            { m with criu_version := { m.criu_version with major := n } }
          else if k = "minor" then
            { m with criu_version := { m.criu_version with minor := n } }
          else if k = "patch" then
            { m with criu_version := { m.criu_version with patch := n } }
          else m
      | none =>
          match parseNumLine line.toList with
          | some (_, n) => { m with timestamp := n }
          | none => m

/-- The C function `checkpoint_load_metadata` (lines 197..258): zero the record, then
fold the per-line parser over the file. -/
def checkpoint_load_metadata (lines : List String) : CheckpointMetadata :=
  lines.foldl loadLine zeroMetadata

/-! Checkpoint image validation (src/src/checkpoint.c lines 376..415)

The filesystem view the function takes: `none` for a path that is missing
or not a directory, `some files` for the readable entries of the image
directory. -/

/-- The three required CRIU image prefixes (`required_files`). -/
def criu_required_files : List String := ["core", "mm", "pstree.img"]

/-- The C function `checkpoint_validate_image`: despite the comment in the source about
prefix matching, the check performed is `access("<dir>/<name>-1.img",
R_OK)` for each required name; `true` stands for CHECKPOINT_SUCCESS and
`false` for CHECKPOINT_ERROR_IMAGE_CORRUPT. -/
def checkpoint_validate_image (dir : Option (List String)) : Bool :=
  match dir with
  | none => false
  | some files =>
      criu_required_files.all (fun r => files.contains (r ++ "-1.img"))

/-- The validation the spec describes (spec section 4.10 and the code's
own comment): each required sidecar present by filename prefix match.
Stated separately so the divergence from `checkpoint_validate_image` can
be exhibited. -/
def spec_validate_image (dir : Option (List String)) : Bool :=
  match dir with
  | none => false
  | some files =>
      criu_required_files.all
        (fun r => files.any (fun f => r.toList.isPrefixOf f.toList))

/-! Kernel image validation (src/src/kexec.c lines 112..214) -/

def MIN_KERNEL_SIZE : Nat := 512 * 1024
def MAX_KERNEL_SIZE : Nat := 200 * 1024 * 1024

/-- A kernel image file as `stat`/`open`/`read` see it: whether it is a
regular file and its byte content (values < 256). -/
structure KernelFile where
  isRegular : Bool
  content : List Nat
deriving Repr, DecidableEq

/-- The outcome fields of `kernel_validation_t` the claim concerns. -/
structure KernelValidation where
  file_size : Nat
  has_valid_magic : Bool
deriving Repr, DecidableEq

/-- The magic-byte recognition chain of `kexec_validate_kernel` (lines
163..200): gzip, bzip2, LZMA, XZ, LZ4 on the 16-bit little-endian magic,
or the 32-bit ELF magic. -/
def kernel_magic_recognized (bytes : List Nat) : Bool :=
  let b0 := bytes.getD 0 0 % 256
  let b1 := bytes.getD 1 0 % 256
  let b2 := bytes.getD 2 0 % 256
  let b3 := bytes.getD 3 0 % 256
  let magic16 := b1 * 256 + b0
  let magic32 := ((b3 * 256 + b2) * 256 + b1) * 256 + b0
  magic16 == 0x1f8b || magic16 == 0x425a || magic16 == 0x5d00 ||
  magic16 == 0xfd37 || magic16 == 0x184c || magic32 == 0x464c457f

/-- The C function `kexec_validate_kernel`: `none` for KEXEC_ERROR_INVALID_KERNEL (file
missing, not regular, too small, too large, or fewer than 4 readable
bytes); otherwise the filled validation record.  Unrecognized magic only
clears `has_valid_magic` (a logged warning), it does not fail. -/
def kexec_validate_kernel (f : Option KernelFile) : Option KernelValidation :=
  match f with
  | none => none
  | some k =>
      if ¬ k.isRegular then none
      else
        let size := k.content.length
        if size < MIN_KERNEL_SIZE then none
        else if size > MAX_KERNEL_SIZE then none
        else
          let bytes := k.content.take 8
          if bytes.length < 4 then none
          else some { file_size := size,
                      has_valid_magic := kernel_magic_recognized bytes }

/-! Handoff completion token (src/src/handoff.h, src/src/handoff.c) -/

/-- HANDOFF_COMPLETE_MSG from handoff.h: note the string literal holds 17
characters. -/
def HANDOFF_COMPLETE_MSG : String := "HANDOFF_COMPLETE\n"

/-- HANDOFF_COMPLETE_LEN from handoff.h. -/
def HANDOFF_COMPLETE_LEN : Nat := 16

/-- The bytes `send_handoff_complete` (handoff.c lines 142..156) puts on
the wire: `write(sock, HANDOFF_COMPLETE_MSG, HANDOFF_COMPLETE_LEN)`
transmits the first HANDOFF_COMPLETE_LEN bytes of the message constant. -/
def send_handoff_complete_bytes : List Char :=
  HANDOFF_COMPLETE_MSG.toList.take HANDOFF_COMPLETE_LEN

/-- C `strncmp(a, b, n) == 0` where `a` is a NUL-terminated buffer whose
contents are the list `a` (the terminator is implicit list end) and `b`
likewise: compare up to n characters, stopping early at a common NUL. -/
def cstrncmpEq (a b : List Char) : Nat → Bool
  | 0 => true
  | n + 1 =>
      let ca := a.headD (Char.ofNat 0)
      let cb := b.headD (Char.ofNat 0)
      if ca ≠ cb then false
      else if ca = Char.ofNat 0 then true
      else cstrncmpEq a.tail b.tail n

/-- The C function `wait_handoff_complete` (handoff.c lines 158..198).  `avail` is what
the bounded poll yields: `none` when the timeout expires with nothing
readable, `some bs` for the byte stream available on the socket, of which
`read(sock, buffer, HANDOFF_COMPLETE_LEN)` consumes at most
HANDOFF_COMPLETE_LEN bytes; the NUL-terminated buffer is then compared
against the message constant with `strncmp(..., HANDOFF_COMPLETE_LEN)`.
`true` stands for the 0 return, `false` for every error return. -/
def wait_handoff_complete (avail : Option (List Char)) : Bool :=
  match avail with
  | none => false
  | some bs =>
      cstrncmpEq (bs.take HANDOFF_COMPLETE_LEN) HANDOFF_COMPLETE_MSG.toList
        HANDOFF_COMPLETE_LEN

/-! Repeated start attempts (for the restart-rate limiter)

The rate limiter of `component_start` only consults the stored
`restart_count` and `last_restart`; to compare it against the spec's
"last five restarts within 30 seconds" reading one needs the whole
history of attempts, so we run a list of timestamped attempts through
`component_start` (each with a successful fork). -/

/-- Run `component_start` once per attempt time, threading the component
and registry, and collect the per-attempt results. -/
def runStarts (idx : Int) (p : Int) (attempts : List Int)
    (comp : Component) (reg : Registry) :
    Component × Registry × List StartResult :=
  match attempts with
  | [] => (comp, reg, [])
  | t :: rest =>
      let s := component_start t (some p) idx comp reg
      let r := runStarts idx p rest s.1 s.2.1
      (r.1, r.2.1, s.2.2 :: r.2.2)

/-! Concrete inputs used by counterexamples and witnesses -/

/-- A service component with every runtime field at its freshly-loaded
value and no declarations beyond the defaults. -/
def baseComponent : Component :=
  { name := "svc", type := CompType.service, requires := [], provides := [],
    readiness_method := ReadinessMethod.readinessNone, readiness_timeout := 0,
    health_fail_threshold := 3, health_restart_threshold := 5,
    state := CompState.inactive, pid := -1, restart_count := 0,
    last_restart := 0, ready_wait_start := 0,
    health_consecutive_failures := 0, last_health_check := 0,
    last_health_result := 0 }

instance : Inhabited Component := ⟨baseComponent⟩

/-- A component with a file readiness probe, used to drive a start into
READY_WAIT and then into the readiness timeout. -/
def readyWaitComponent : Component :=
  { baseComponent with
      provides := ["cap.svc"],
      readiness_method := ReadinessMethod.readinessFile }

/-- A DEGRADED component one health failure away from the restart
threshold, its capability registered and marked degraded. -/
def degradedComponent : Component :=
  { baseComponent with
      provides := ["cap.svc"], state := CompState.degraded, pid := 77,
      health_consecutive_failures := 4 }

/-- An ACTIVE component one health failure away from the fail
threshold. -/
def activeComponent : Component :=
  { baseComponent with
      provides := ["cap.svc"], state := CompState.active, pid := 77,
      health_consecutive_failures := 2 }

/-- A registry holding the single capability `cap.svc`, active and not
degraded, as after the component registered it. -/
def exampleRegistry : Registry :=
  capability_register capability_init "cap.svc" 0

/-- The metadata record of the repository's own round-trip test
(tests/unit/test_checkpoint.c, checkpoint_metadata_save_load), with a
fixed timestamp. -/
def exampleMetadata : CheckpointMetadata :=
  { component_name := "test-service", original_pid := 12345,
    timestamp := 1700000000, image_size := 1048576,
    capabilities := "network,filesystem", criu_version := ⟨3, 15, 0⟩,
    leave_running := 1, preserve_fds := "network,filesystem" }

/-- The minimal image directory the repository's own workflow test
creates for validation (tests/unit/test_checkpoint.c, lines 322..345):
`core-1.img`, `mm-1.img` and `pstree.img` — the names CRIU itself
produces. -/
def exampleImageDir : List String := ["core-1.img", "mm-1.img", "pstree.img"]

/-- A regular 512-KiB kernel image file of zero bytes: size exactly at
the minimum, magic bytes unrecognized. -/
def exampleKernelFile : KernelFile :=
  { isRegular := true, content := List.replicate MIN_KERNEL_SIZE 0 }

/-- A service with a recorded pid, about to be reaped. -/
def exitedServiceComponent : Component := { baseComponent with pid := 55 }

/-- A READY_WAIT component with a recorded pid and the default readiness
timeout. -/
def timedOutComponent : Component :=
  { baseComponent with state := CompState.readyWait, pid := 55 }

/-- A READY_WAIT component whose requirement no registry satisfies. -/
def lostReqComponent : Component :=
  { baseComponent with
      state := CompState.readyWait, pid := 55,
      requires := ["missing.cap"] }

/-- A component with five recorded restarts, the most recent at time 0. -/
def throttledComponent : Component :=
  { baseComponent with restart_count := 5 }

/-! C10: component_ready outside READY_WAIT is a no-op -/

/-- C10: calling `component_ready` on a component whose state is not
READY_WAIT changes nothing: the component record (state, pid, counters)
and the capability registry are returned untouched. -/
theorem c10_component_ready_frame (idx : Int) (comp : Component)
    (reg : Registry) (h : comp.state ≠ CompState.readyWait) :
    component_ready idx comp reg = (comp, reg) := by
  simp [component_ready, h]

/-- Witness for C10 at a concrete input: an INACTIVE component. -/
theorem c10_witness :
    baseComponent.state ≠ CompState.readyWait ∧
    component_ready 0 baseComponent capability_init =
      (baseComponent, capability_init) :=
  ⟨by decide,
   c10_component_ready_frame 0 baseComponent capability_init (by decide)⟩

/-! C3: metadata save/load drops the timestamp -/

/-- C3: evaluating save-then-load at the record of the repository's own
round-trip test shows the other five carried fields surviving but the
wall-clock timestamp coming back as 0: the loader's `%d` branch consumes
the `"timestamp": <n>` line (its key dispatch has no timestamp case) and
the dedicated `%ld` timestamp branch is unreachable. -/
theorem c3_metadata_roundtrip_drops_timestamp :
    checkpoint_load_metadata (checkpoint_save_metadata exampleMetadata) =
      { exampleMetadata with timestamp := 0 } ∧
    exampleMetadata.timestamp = 1700000000 := by
  constructor
  · rfl
  · rfl

/-! C8: image validation checks exact -1.img names, not prefixes -/

/-- C8: on the directory layout the repository's own workflow test
creates (and CRIU produces) — `core-1.img`, `mm-1.img`, `pstree.img` —
`checkpoint_validate_image` reports the image corrupt because it demands
the exact file `pstree.img-1.img`, while the prefix-match validation the
claim (and the code's own comment) describe accepts it; a directory with
all three `-1.img` names is accepted. -/
theorem c8_validate_image_requires_exact_names :
    checkpoint_validate_image (some exampleImageDir) = false ∧
    spec_validate_image (some exampleImageDir) = true ∧
    checkpoint_validate_image
      (some ["core-1.img", "mm-1.img", "pstree.img-1.img"]) = true := by
  decide

/-! C7: the completion token on the wire has no newline -/

/-- C7 counterexample: `send_handoff_complete` writes exactly
HANDOFF_COMPLETE_LEN = 16 bytes, and those bytes are not the
`HANDOFF_COMPLETE\n` of the claim — no newline is transmitted (the
message constant's 17th character lies beyond the declared length); and
the 16-byte sequence without the newline, which differs from the claimed
token, makes `wait_handoff_complete` succeed. -/
theorem c7_counterexample :
    send_handoff_complete_bytes.length = HANDOFF_COMPLETE_LEN ∧
    send_handoff_complete_bytes ≠ HANDOFF_COMPLETE_MSG.toList ∧
    Char.ofNat 10 ∉ send_handoff_complete_bytes ∧
    wait_handoff_complete (some send_handoff_complete_bytes) = true := by
  decide

/-- strncmp against a NUL-free token compared over exactly the token's
length: equality holds exactly when the buffer starts with the token
(characters of the second operand beyond the token's length are never
inspected). -/
theorem cstrncmpEq_token (t : List Char)
    (hz : ∀ c ∈ t, c ≠ Char.ofNat 0) (extra a : List Char) :
    cstrncmpEq a (t ++ extra) t.length = true ↔ a.take t.length = t := by
  induction t generalizing a with
  | nil => simp [cstrncmpEq]
  | cons t0 ts ih =>
    have ht0 : t0 ≠ Char.ofNat 0 := hz t0 (by simp)
    have hts : ∀ c ∈ ts, c ≠ Char.ofNat 0 := fun c hc => hz c (by simp [hc])
    cases a with
    | nil =>
      have hne : Char.ofNat 0 ≠ t0 := fun h => ht0 h.symm
      simp [cstrncmpEq, List.headD, hne]
    | cons a0 as =>
      by_cases hae : a0 = t0
      · subst hae
        simp only [cstrncmpEq, List.cons_append, List.headD, List.tail,
          List.length_cons, List.take, List.cons.injEq, true_and,
          if_neg (by simp : ¬ (a0 ≠ a0)), if_neg ht0]
        exact ih hts as
      · have hne : a0 ≠ t0 := hae
        simp [cstrncmpEq, List.headD, hne]

/-- C7 amended: the completion token actually written is the 16 bytes
`HANDOFF_COMPLETE` with no trailing newline, and `wait_handoff_complete`
succeeds exactly when data arrives before the timeout and the (at most
16) bytes read begin with that 16-byte token. -/
theorem c7_amended :
    send_handoff_complete_bytes = "HANDOFF_COMPLETE".toList ∧
    ∀ avail, wait_handoff_complete avail = true ↔
      ∃ bs, avail = some bs ∧
        bs.take HANDOFF_COMPLETE_LEN = "HANDOFF_COMPLETE".toList := by
  constructor
  · rfl
  · intro avail
    cases avail with
    | none => simp [wait_handoff_complete]
    | some bs =>
      have hmsg : HANDOFF_COMPLETE_MSG.toList =
          "HANDOFF_COMPLETE".toList ++ [Char.ofNat 10] := rfl
      have hlen : ("HANDOFF_COMPLETE".toList).length = HANDOFF_COMPLETE_LEN :=
        rfl
      have key := cstrncmpEq_token "HANDOFF_COMPLETE".toList (by decide)
        [Char.ofNat 10] (bs.take HANDOFF_COMPLETE_LEN)
      rw [hlen] at key
      simp only [wait_handoff_complete, hmsg]
      constructor
      · intro h
        refine ⟨bs, rfl, ?_⟩
        have h2 := key.mp h
        rwa [List.take_take, min_self] at h2
      · rintro ⟨bs', hb, ht⟩
        have hbs : bs' = bs := by injection hb.symm
        subst hbs
        apply key.mpr
        rwa [List.take_take, min_self]

/-- Witness for C7's amended theorem at a concrete input: a stream
beginning with the 16-byte token (and trailing bytes beyond the read) is
accepted. -/
theorem c7_amended_witness :
    wait_handoff_complete
      (some ("HANDOFF_COMPLETE".toList ++ ['x', 'y'])) = true :=
  (c7_amended.2 (some ("HANDOFF_COMPLETE".toList ++ ['x', 'y']))).mpr
    ⟨"HANDOFF_COMPLETE".toList ++ ['x', 'y'], rfl, by decide⟩

/-! C4: the rate limiter keys on total restart count, not a window -/

/-- C4 counterexample: six start attempts at times 0, 100, 200, 300, 400
and 410 on a fresh component.  The first five all succeed, so at the
sixth attempt the component's (only) five restarts happened at times 0
through 400 — not within the last 30 seconds (410 - 0 = 410).  The claim
says the limiter must not block; the code refuses the start. -/
theorem c4_counterexample :
    (runStarts 0 42 [0, 100, 200, 300, 400, 410] baseComponent
        capability_init).2.2 =
      [StartResult.started, StartResult.started, StartResult.started,
       StartResult.started, StartResult.started, StartResult.rateLimited] ∧
    ¬ ((410 : Int) - 0 < 30 ∧ (410 : Int) - 100 < 30 ∧
       (410 : Int) - 200 < 30 ∧ (410 : Int) - 300 < 30 ∧
       (410 : Int) - 400 < 30) := by
  decide

/-- C4 amended: `component_start` refuses with the rate-limit log exactly
when the component's stored total restart count is at least 5 and its
most recent restart lies less than 30 seconds in the past; in every other
case the limiter lets the start proceed (to the fork). -/
theorem c4_amended_rate_limit (now : Int) (fp : Option Int) (idx : Int)
    (comp : Component) (reg : Registry) :
    (component_start now fp idx comp reg).2.2 = StartResult.rateLimited ↔
      (comp.restart_count ≥ 5 ∧ now - comp.last_restart < 30) := by
  unfold component_start
  by_cases h : now - comp.last_restart < 30 ∧ comp.restart_count ≥ 5
  · rw [if_pos h]
    simpa using ⟨h.2, h.1⟩
  · rw [if_neg h]
    have hne : ¬ (comp.restart_count ≥ 5 ∧ now - comp.last_restart < 30) :=
      fun hc => h ⟨hc.2, hc.1⟩
    cases fp with
    | none => simpa using hne
    | some p =>
      by_cases hr : comp.readiness_method = ReadinessMethod.readinessNone <;>
        simpa [hr] using hne

/-- Witness for C4's amended theorem at a concrete input: five recorded
restarts with the last one 10 seconds ago make the limiter refuse. -/
theorem c4_amended_witness :
    (component_start 10 (some 42) 0 throttledComponent
        capability_init).2.2 = StartResult.rateLimited :=
  (c4_amended_rate_limit 10 (some 42) 0 throttledComponent
    capability_init).mpr (by decide)

/-! C2: not every transition into FAILED clears the pid -/

/-- C2 counterexample: a concrete reachable sequence — start a component
with a file readiness probe at time 100 (fork yields pid 321), so it sits
in READY_WAIT with pid 321; at time 130 the readiness timeout fires.  The
transition into FAILED leaves the pid field at 321, so `pid set iff state
∈ {STARTING, READY_WAIT, ACTIVE, DEGRADED}` fails at this reachable
state. -/
theorem c2_counterexample :
    (component_start 100 (some 321) 0 readyWaitComponent
        capability_init).1.state = CompState.readyWait ∧
    (component_start 100 (some 321) 0 readyWaitComponent
        capability_init).1.pid = 321 ∧
    (check_readiness_timeout 130 (component_start 100 (some 321) 0
        readyWaitComponent capability_init).1).1.state = CompState.failed ∧
    (check_readiness_timeout 130 (component_start 100 (some 321) 0
        readyWaitComponent capability_init).1).1.pid = 321 := by
  decide

/-- C2 amended: what the code actually maintains.  A successful start
records the forked pid and lands in ACTIVE or READY_WAIT; reaping a
service exit and the health monitor's restart threshold clear the pid on
their FAILED transitions; but the readiness-timeout FAILED transition and
the resolver's lost-requirements FAILED transition (READY_WAIT arm) leave
the pid field unchanged — the process is only signalled, and the field is
cleared later when the exit is reaped. -/
theorem c2_amended_pid_discipline :
    (∀ now p idx comp reg,
       (component_start now (some p) idx comp reg).2.2 =
           StartResult.started →
         (component_start now (some p) idx comp reg).1.pid = p ∧
         ((component_start now (some p) idx comp reg).1.state =
             CompState.active ∨
          (component_start now (some p) idx comp reg).1.state =
             CompState.readyWait)) ∧
    (∀ idx st comp reg, comp.type = CompType.service →
       (component_exited idx st comp reg).1.state = CompState.failed ∧
       (component_exited idx st comp reg).1.pid = -1) ∧
    (∀ now result comp reg, comp.state = CompState.degraded → result ≠ 0 →
       comp.health_consecutive_failures + 1 ≥
           comp.health_restart_threshold →
       (handle_health_result now result comp reg).1.state =
           CompState.failed ∧
       (handle_health_result now result comp reg).1.pid = -1) ∧
    (∀ now comp, comp.state = CompState.readyWait →
       now - comp.ready_wait_start ≥
         (if comp.readiness_timeout > 0 then comp.readiness_timeout
          else 30) →
       (check_readiness_timeout now comp).1.state = CompState.failed ∧
       (check_readiness_timeout now comp).1.pid = comp.pid) ∧
    (∀ now fp idx comp reg, comp.state = CompState.readyWait →
       requirements_met reg comp = false →
       (graph_resolve_comp now fp idx comp reg).1.state = CompState.failed ∧
       (graph_resolve_comp now fp idx comp reg).1.pid = comp.pid) := by
  refine ⟨?_, ?_, ?_, ?_, ?_⟩
  · intro now p idx comp reg hres
    unfold component_start at hres ⊢
    by_cases h : now - comp.last_restart < 30 ∧ comp.restart_count ≥ 5
    · rw [if_pos h] at hres; simp at hres
    · rw [if_neg h] at hres ⊢
      by_cases hr : comp.readiness_method = ReadinessMethod.readinessNone <;>
        simp [hr]
  · intro idx st comp reg htype
    have hne : ¬ comp.type = CompType.oneshot := by
      rw [htype]; intro hc; cases hc
    simp [component_exited, hne]
  · intro now result comp reg hstate hres hthr
    simp [handle_health_result, hstate, hres, hthr]
  · intro now comp hstate hto
    simp [check_readiness_timeout, hstate, hto]
  · intro now fp idx comp reg hstate hreq
    simp [graph_resolve_comp, hstate, hreq]

/-- Witness for C2's amended theorem: all five parts instantiated at
concrete components. -/
theorem c2_amended_witness :
    ((component_start 100 (some 321) 0 readyWaitComponent
        capability_init).1.pid = 321 ∧
     ((component_start 100 (some 321) 0 readyWaitComponent
        capability_init).1.state = CompState.active ∨
      (component_start 100 (some 321) 0 readyWaitComponent
        capability_init).1.state = CompState.readyWait)) ∧
    ((component_exited 0 ⟨true, 1⟩ exitedServiceComponent
        capability_init).1.state = CompState.failed ∧
     (component_exited 0 ⟨true, 1⟩ exitedServiceComponent
        capability_init).1.pid = -1) ∧
    ((handle_health_result 5 2 degradedComponent exampleRegistry).1.state =
        CompState.failed ∧
     (handle_health_result 5 2 degradedComponent exampleRegistry).1.pid =
        -1) ∧
    ((check_readiness_timeout 30 timedOutComponent).1.state =
        CompState.failed ∧
     (check_readiness_timeout 30 timedOutComponent).1.pid = 55) ∧
    ((graph_resolve_comp 0 none 0 lostReqComponent
        capability_init).1.state = CompState.failed ∧
     (graph_resolve_comp 0 none 0 lostReqComponent
        capability_init).1.pid = 55) := by
  refine ⟨?_, ?_, ?_, ?_, ?_⟩
  · exact c2_amended_pid_discipline.1 100 321 0 readyWaitComponent
      capability_init (by decide)
  · exact c2_amended_pid_discipline.2.1 0 ⟨true, 1⟩
      exitedServiceComponent capability_init (by decide)
  · exact c2_amended_pid_discipline.2.2.1 5 2 degradedComponent
      exampleRegistry (by decide) (by decide) (by decide)
  · exact c2_amended_pid_discipline.2.2.2.1 30 timedOutComponent
      (by decide) (by decide)
  · exact c2_amended_pid_discipline.2.2.2.2 0 none 0 lostReqComponent
      capability_init (by decide) (by decide)

/-! C9: kernel image validation -/

/-- C9: kernel-image validation fails exactly for a missing file, a
non-regular file, a size below 512 KiB or above 200 MiB; within those
bounds it succeeds and merely records whether the leading magic bytes
were recognized (unknown magic is the logged-warning case
`has_valid_magic = false`, not a failure). -/
theorem c9_kernel_validation :
    kexec_validate_kernel none = none ∧
    (∀ k : KernelFile, (kexec_validate_kernel (some k)).isSome ↔
      (k.isRegular = true ∧ MIN_KERNEL_SIZE ≤ k.content.length ∧
       k.content.length ≤ MAX_KERNEL_SIZE)) ∧
    (∀ k : KernelFile, k.isRegular = true →
      MIN_KERNEL_SIZE ≤ k.content.length →
      k.content.length ≤ MAX_KERNEL_SIZE →
      kexec_validate_kernel (some k) =
        some { file_size := k.content.length,
               has_valid_magic :=
                 kernel_magic_recognized (k.content.take 8) }) := by
  have main : ∀ k : KernelFile, k.isRegular = true →
      MIN_KERNEL_SIZE ≤ k.content.length →
      k.content.length ≤ MAX_KERNEL_SIZE →
      kexec_validate_kernel (some k) =
        some { file_size := k.content.length,
               has_valid_magic :=
                 kernel_magic_recognized (k.content.take 8) } := by
    intro k hreg hmin hmax
    have h8 : (k.content.take 8).length = 8 := by
      rw [List.length_take]
      have : 8 ≤ k.content.length := by
        have : (8 : Nat) ≤ MIN_KERNEL_SIZE := by norm_num [MIN_KERNEL_SIZE]
        omega
      omega
    simp only [kexec_validate_kernel, hreg]
    rw [if_neg (by simp), if_neg (by omega), if_neg (by omega),
      if_neg (by omega)]
  refine ⟨rfl, ?_, main⟩
  intro k
  constructor
  · intro hsome
    cases hreg : k.isRegular with
    | false =>
      rw [kexec_validate_kernel, if_pos (by simp [hreg])] at hsome
      cases hsome
    | true =>
      refine ⟨rfl, ?_, ?_⟩ <;> by_contra hc <;> push_neg at hc
      · rw [kexec_validate_kernel, if_neg (by simp [hreg]),
          if_pos hc] at hsome
        cases hsome
      · have hmm : MIN_KERNEL_SIZE ≤ MAX_KERNEL_SIZE := by
          norm_num [MIN_KERNEL_SIZE, MAX_KERNEL_SIZE]
        rw [kexec_validate_kernel, if_neg (by simp [hreg]),
          if_neg (by omega), if_pos hc] at hsome
        cases hsome
  · rintro ⟨hreg, hmin, hmax⟩
    rw [main k hreg hmin hmax]
    rfl

/-- Witness for C9 at a concrete input: a regular 512-KiB file of zeros
(valid size, unrecognized magic) passes validation with
`has_valid_magic = false`. -/
theorem c9_witness :
    exampleKernelFile.isRegular = true ∧
    MIN_KERNEL_SIZE ≤ exampleKernelFile.content.length ∧
    exampleKernelFile.content.length ≤ MAX_KERNEL_SIZE ∧
    kexec_validate_kernel (some exampleKernelFile) =
      some { file_size := exampleKernelFile.content.length,
             has_valid_magic :=
               kernel_magic_recognized (exampleKernelFile.content.take 8) } := by
  have hc : exampleKernelFile.content = List.replicate MIN_KERNEL_SIZE 0 :=
    rfl
  have hlen : exampleKernelFile.content.length = MIN_KERNEL_SIZE := by
    rw [hc, List.length_replicate]
  have h1 : MIN_KERNEL_SIZE ≤ exampleKernelFile.content.length := by
    rw [hlen]
  have h2 : exampleKernelFile.content.length ≤ MAX_KERNEL_SIZE := by
    rw [hlen]
    norm_num [MIN_KERNEL_SIZE, MAX_KERNEL_SIZE]
  exact ⟨rfl, h1, h2, c9_kernel_validation.2.2 exampleKernelFile rfl h1 h2⟩

/-! Registry lemmas: reading through set / mark / withdraw / folds -/

theorem getD_set_self {α : Type _} :
    ∀ (l : List α) (i : Nat) (a d : α), i < l.length →
      (l.set i a).getD i d = a := by
  intro l
  induction l with
  | nil => intro i a d h; simp at h
  | cons x xs ih =>
    intro i a d h
    cases i with
    | zero => rfl
    | succ n =>
      have hn : n < xs.length := by simpa using h
      simpa [List.set] using ih n a d hn

theorem getD_set_ne {α : Type _} :
    ∀ (l : List α) (i j : Nat) (a d : α), i ≠ j →
      (l.set i a).getD j d = l.getD j d := by
  intro l
  induction l with
  | nil => intro i j a d _; rfl
  | cons x xs ih =>
    intro i j a d hne
    cases i with
    | zero =>
      cases j with
      | zero => exact absurd rfl hne
      | succ m => rfl
    | succ n =>
      cases j with
      | zero => rfl
      | succ m =>
        have : n ≠ m := fun h => hne (by rw [h])
        simpa [List.set] using ih n m a d this

theorem findIdx?_lt_length {α : Type _} (p : α → Bool) :
    ∀ (l : List α) (i : Nat), l.findIdx? p = some i → i < l.length := by
  intro l
  induction l with
  | nil => intro i h; simp [List.findIdx?_nil] at h
  | cons x xs ih =>
    intro i h
    rw [List.findIdx?_cons] at h
    by_cases hx : p x
    · rw [if_pos hx] at h
      have h0 : (0 : Nat) = i := by injection h
      rw [← h0, List.length_cons]
      exact Nat.succ_pos _
    · rw [if_neg hx, List.findIdx?_succ] at h
      cases h2 : xs.findIdx? p with
      | none => rw [h2] at h; simp at h
      | some m =>
        rw [h2] at h
        simp at h
        rw [← h, List.length_cons]
        exact Nat.succ_lt_succ (ih m h2)

theorem findIdx?_getD {α : Type _} [Inhabited α] (p : α → Bool) :
    ∀ (l : List α) (i : Nat), l.findIdx? p = some i →
      p (l.getD i default) = true := by
  intro l
  induction l with
  | nil => intro i h; simp [List.findIdx?_nil] at h
  | cons x xs ih =>
    intro i h
    rw [List.findIdx?_cons] at h
    by_cases hx : p x
    · rw [if_pos hx] at h
      have h0 : (0 : Nat) = i := by injection h
      rw [← h0]
      simpa using hx
    · rw [if_neg hx, List.findIdx?_succ] at h
      cases h2 : xs.findIdx? p with
      | none => rw [h2] at h; simp at h
      | some m =>
        rw [h2] at h
        simp at h
        rw [← h]
        simpa [List.getD] using ih m h2

theorem capability_index_lt (reg : Registry) (n : String) (i : Nat)
    (h : capability_index reg n = some i) : i < reg.caps.length :=
  findIdx?_lt_length _ reg.caps i h

theorem capability_index_name (reg : Registry) (n : String) (i : Nat)
    (h : capability_index reg n = some i) :
    (reg.caps.getD i default).name = n := by
  have h' : reg.caps.findIdx? (fun c : Capability => c.name == n) = some i := h
  exact eq_of_beq (findIdx?_getD (fun c : Capability => c.name == n)
    reg.caps i h')

theorem map_name_set :
    ∀ (caps : List Capability) (i : Nat) (c' : Capability),
      c'.name = (caps.getD i default).name →
      (caps.set i c').map (fun c => c.name) = caps.map (fun c => c.name) := by
  intro caps
  induction caps with
  | nil => intro i c' _; rfl
  | cons x xs ih =>
    intro i c' h
    cases i with
    | zero => simp_all [List.set, List.getD]
    | succ n => simpa [List.set] using ih n c' (by simpa [List.getD] using h)

theorem capability_index_congr (r1 r2 : Registry)
    (h : r1.caps.map (fun c => c.name) = r2.caps.map (fun c => c.name))
    (n : String) : capability_index r1 n = capability_index r2 n := by
  unfold capability_index
  rw [show (fun c : Capability => c.name == n) =
      ((fun s => s == n) ∘ (fun c : Capability => c.name)) from rfl,
    ← List.findIdx?_map, ← List.findIdx?_map, h]

theorem mark_eq_of_index_none (reg : Registry) (n : String) (b : Bool)
    (h : capability_index reg n = none) :
    capability_mark_degraded reg n b = reg := by
  unfold capability_mark_degraded
  rw [h]

theorem mark_eq_of_index_some (reg : Registry) (n : String) (b : Bool)
    (i : Nat) (h : capability_index reg n = some i) :
    capability_mark_degraded reg n b =
      ⟨reg.caps.set i { reg.caps.getD i default with degraded := b }⟩ := by
  unfold capability_mark_degraded
  rw [h]

theorem index_mark (reg : Registry) (n : String) (b : Bool) (m : String) :
    capability_index (capability_mark_degraded reg n b) m =
      capability_index reg m := by
  cases h : capability_index reg n with
  | none => rw [mark_eq_of_index_none reg n b h]
  | some i =>
    rw [mark_eq_of_index_some reg n b i h]
    exact capability_index_congr _ _
      (map_name_set reg.caps i
        { reg.caps.getD i default with degraded := b } rfl) m

theorem active_mark (reg : Registry) (n : String) (b : Bool) (m : String) :
    capability_active (capability_mark_degraded reg n b) m =
      capability_active reg m := by
  unfold capability_active
  rw [index_mark]
  cases hm : capability_index reg m with
  | none => rfl
  | some k =>
    cases hn : capability_index reg n with
    | none => rw [mark_eq_of_index_none reg n b hn]
    | some i =>
      rw [mark_eq_of_index_some reg n b i hn]
      by_cases hik : i = k
      · subst hik
        show ((reg.caps.set i _).getD i default).active = _
        rw [getD_set_self _ _ _ _ (capability_index_lt reg n i hn)]
      · show ((reg.caps.set i _).getD k default).active = _
        rw [getD_set_ne _ _ _ _ _ hik]

theorem degraded_mark_self (reg : Registry) (n : String) (b : Bool) (i : Nat)
    (h : capability_index reg n = some i) :
    capability_degraded (capability_mark_degraded reg n b) n = b := by
  unfold capability_degraded
  rw [index_mark, h, mark_eq_of_index_some reg n b i h]
  show ((reg.caps.set i _).getD i default).degraded = b
  rw [getD_set_self _ _ _ _ (capability_index_lt reg n i h)]

theorem degraded_mark_other (reg : Registry) (n : String) (b : Bool)
    (m : String) (hne : m ≠ n) :
    capability_degraded (capability_mark_degraded reg n b) m =
      capability_degraded reg m := by
  unfold capability_degraded
  rw [index_mark]
  cases hm : capability_index reg m with
  | none => rfl
  | some k =>
    cases hn : capability_index reg n with
    | none => rw [mark_eq_of_index_none reg n b hn]
    | some i =>
      rw [mark_eq_of_index_some reg n b i hn]
      have hik : i ≠ k := by
        intro he
        subst he
        exact hne (by
          rw [← capability_index_name reg m i hm,
            capability_index_name reg n i hn])
      show ((reg.caps.set i _).getD k default).degraded = _
      rw [getD_set_ne _ _ _ _ _ hik]

theorem withdraw_eq_of_index_none (reg : Registry) (n : String)
    (h : capability_index reg n = none) :
    capability_withdraw reg n = reg := by
  unfold capability_withdraw
  rw [h]

theorem withdraw_eq_of_index_some (reg : Registry) (n : String) (i : Nat)
    (h : capability_index reg n = some i) :
    capability_withdraw reg n =
      ⟨reg.caps.set i { reg.caps.getD i default with active := false }⟩ := by
  unfold capability_withdraw
  rw [h]

theorem index_withdraw (reg : Registry) (n m : String) :
    capability_index (capability_withdraw reg n) m =
      capability_index reg m := by
  cases h : capability_index reg n with
  | none => rw [withdraw_eq_of_index_none reg n h]
  | some i =>
    rw [withdraw_eq_of_index_some reg n i h]
    exact capability_index_congr _ _
      (map_name_set reg.caps i
        { reg.caps.getD i default with active := false } rfl) m

theorem active_withdraw_self (reg : Registry) (n : String) (i : Nat)
    (h : capability_index reg n = some i) :
    capability_active (capability_withdraw reg n) n = false := by
  unfold capability_active
  rw [index_withdraw, h, withdraw_eq_of_index_some reg n i h]
  show ((reg.caps.set i _).getD i default).active = false
  rw [getD_set_self _ _ _ _ (capability_index_lt reg n i h)]

theorem active_withdraw_other (reg : Registry) (n m : String) (hne : m ≠ n) :
    capability_active (capability_withdraw reg n) m =
      capability_active reg m := by
  unfold capability_active
  rw [index_withdraw]
  cases hm : capability_index reg m with
  | none => rfl
  | some k =>
    cases hn : capability_index reg n with
    | none => rw [withdraw_eq_of_index_none reg n hn]
    | some i =>
      rw [withdraw_eq_of_index_some reg n i hn]
      have hik : i ≠ k := by
        intro he
        subst he
        exact hne (by
          rw [← capability_index_name reg m i hm,
            capability_index_name reg n i hn])
      show ((reg.caps.set i _).getD k default).active = _
      rw [getD_set_ne _ _ _ _ _ hik]

theorem active_foldMark (L : List String) (b : Bool) :
    ∀ (reg : Registry) (m : String),
      capability_active
          (L.foldl (fun r cap => capability_mark_degraded r cap b) reg) m =
        capability_active reg m := by
  induction L with
  | nil => intro reg m; rfl
  | cons c rest ih =>
    intro reg m
    simpa [List.foldl] using
      (ih (capability_mark_degraded reg c b) m).trans (active_mark reg c b m)

theorem index_foldMark (L : List String) (b : Bool) :
    ∀ (reg : Registry) (m : String),
      capability_index
          (L.foldl (fun r cap => capability_mark_degraded r cap b) reg) m =
        capability_index reg m := by
  induction L with
  | nil => intro reg m; rfl
  | cons c rest ih =>
    intro reg m
    simpa [List.foldl] using
      (ih (capability_mark_degraded reg c b) m).trans (index_mark reg c b m)

theorem degraded_foldMark_not_mem (L : List String) (b : Bool) (m : String)
    (hm : m ∉ L) :
    ∀ (reg : Registry),
      capability_degraded
          (L.foldl (fun r cap => capability_mark_degraded r cap b) reg) m =
        capability_degraded reg m := by
  induction L with
  | nil => intro reg; rfl
  | cons c rest ih =>
    intro reg
    have hmc : m ≠ c := fun h => hm (by simp [h])
    have hmr : m ∉ rest := fun h => hm (by simp [h])
    simpa [List.foldl] using
      (ih hmr (capability_mark_degraded reg c b)).trans
        (degraded_mark_other reg c b m hmc)

theorem degraded_foldMark_mem (L : List String) (m : String) (hm : m ∈ L) :
    ∀ (reg : Registry), (capability_index reg m).isSome →
      capability_degraded
          (L.foldl (fun r cap => capability_mark_degraded r cap true) reg) m =
        true := by
  induction L with
  | nil => cases hm
  | cons c rest ih =>
    intro reg hsome
    by_cases hmr : m ∈ rest
    · refine ih hmr (capability_mark_degraded reg c true) ?_
      rw [index_mark]
      exact hsome
    · have hmc : m = c := by
        rcases List.mem_cons.mp hm with h | h
        · exact h
        · exact absurd h hmr
      subst hmc
      show capability_degraded
        (rest.foldl (fun r cap => capability_mark_degraded r cap true)
          (capability_mark_degraded reg m true)) m = true
      rw [degraded_foldMark_not_mem rest true m hmr]
      obtain ⟨i, hi⟩ := Option.isSome_iff_exists.mp hsome
      exact degraded_mark_self reg m true i hi

theorem active_foldWithdraw_not_mem (L : List String) (m : String)
    (hm : m ∉ L) :
    ∀ (reg : Registry),
      capability_active
          (L.foldl (fun r cap => capability_withdraw r cap) reg) m =
        capability_active reg m := by
  induction L with
  | nil => intro reg; rfl
  | cons c rest ih =>
    intro reg
    have hmc : m ≠ c := fun h => hm (by simp [h])
    have hmr : m ∉ rest := fun h => hm (by simp [h])
    simpa [List.foldl] using
      (ih hmr (capability_withdraw reg c)).trans
        (active_withdraw_other reg c m hmc)

theorem index_foldWithdraw (L : List String) :
    ∀ (reg : Registry) (m : String),
      capability_index
          (L.foldl (fun r cap => capability_withdraw r cap) reg) m =
        capability_index reg m := by
  induction L with
  | nil => intro reg m; rfl
  | cons c rest ih =>
    intro reg m
    simpa [List.foldl] using
      (ih (capability_withdraw reg c) m).trans (index_withdraw reg c m)

theorem active_foldWithdraw_mem (L : List String) (m : String) (hm : m ∈ L) :
    ∀ (reg : Registry), (capability_index reg m).isSome →
      capability_active
          (L.foldl (fun r cap => capability_withdraw r cap) reg) m =
        false := by
  induction L with
  | nil => cases hm
  | cons c rest ih =>
    intro reg hsome
    by_cases hmr : m ∈ rest
    · refine ih hmr (capability_withdraw reg c) ?_
      rw [index_withdraw]
      exact hsome
    · have hmc : m = c := by
        rcases List.mem_cons.mp hm with h | h
        · exact h
        · exact absurd h hmr
      subst hmc
      show capability_active
        (rest.foldl (fun r cap => capability_withdraw r cap)
          (capability_withdraw reg m)) m = false
      rw [active_foldWithdraw_not_mem rest m hmr]
      obtain ⟨i, hi⟩ := Option.isSome_iff_exists.mp hsome
      exact active_withdraw_self reg m i hi

/-! C1: degraded marking at the fail threshold -/

/-- C1: the registry keeps a per-capability degraded flag;
`capability_mark_degraded(name, b)` sets that flag on the named (and
registered) capability without touching its active flag; and when an
ACTIVE component's consecutive health failures reach the fail threshold
F, `handle_health_result` moves it to DEGRADED and marks every registered
capability of its provides list degraded while leaving each one exactly
as active as before (nothing is withdrawn). -/
theorem c1_degraded_marking :
    (∀ (reg : Registry) (name : String) (b : Bool) (i : Nat),
       capability_index reg name = some i →
       capability_degraded (capability_mark_degraded reg name b) name = b ∧
       capability_active (capability_mark_degraded reg name b) name =
         capability_active reg name) ∧
    (∀ (now result : Int) (comp : Component) (reg : Registry),
       comp.state = CompState.active → result ≠ 0 →
       comp.health_consecutive_failures + 1 ≥ comp.health_fail_threshold →
       (handle_health_result now result comp reg).1.state =
           CompState.degraded ∧
       (∀ cap ∈ comp.provides, (capability_index reg cap).isSome →
          capability_degraded
              (handle_health_result now result comp reg).2.1 cap = true ∧
          capability_active
              (handle_health_result now result comp reg).2.1 cap =
            capability_active reg cap)) := by
  constructor
  · intro reg name b i hi
    exact ⟨degraded_mark_self reg name b i hi, active_mark reg name b name⟩
  · intro now result comp reg hstate hres hthr
    have hred : handle_health_result now result comp reg =
        ({ comp with
             last_health_check := now, last_health_result := result,
             health_consecutive_failures :=
               comp.health_consecutive_failures + 1,
             state := CompState.degraded },
         comp.provides.foldl
           (fun r cap => capability_mark_degraded r cap true) reg,
         []) := by
      simp [handle_health_result, hstate, hres, hthr]
    rw [hred]
    refine ⟨rfl, ?_⟩
    intro cap hcap hsome
    exact ⟨degraded_foldMark_mem comp.provides cap hcap reg hsome,
      active_foldMark comp.provides true reg cap⟩

/-- Witness for C1 at concrete inputs: the single-capability registry and
an ACTIVE component one failure short of its fail threshold, failing a
health check. -/
theorem c1_witness :
    (capability_degraded
        (capability_mark_degraded exampleRegistry "cap.svc" true)
        "cap.svc" = true ∧
     capability_active
        (capability_mark_degraded exampleRegistry "cap.svc" true)
        "cap.svc" = capability_active exampleRegistry "cap.svc") ∧
    ((handle_health_result 5 1 activeComponent exampleRegistry).1.state =
        CompState.degraded ∧
     capability_degraded
        (handle_health_result 5 1 activeComponent exampleRegistry).2.1
        "cap.svc" = true ∧
     capability_active
        (handle_health_result 5 1 activeComponent exampleRegistry).2.1
        "cap.svc" = capability_active exampleRegistry "cap.svc") := by
  have h1 := c1_degraded_marking.1 exampleRegistry "cap.svc" true 0 (by decide)
  have h2 := c1_degraded_marking.2 5 1 activeComponent exampleRegistry
    (by decide) (by decide) (by decide)
  have h3 := h2.2 "cap.svc" (by decide) (by decide)
  exact ⟨h1, h2.1, h3.1, h3.2⟩

/-! C5: DEGRADED failures up to the restart threshold -/

/-- C5: for a DEGRADED component every nonzero health result (failure or
timeout) increments the consecutive-failure counter; below the restart
threshold R the component stays DEGRADED with the incremented counter and
an untouched registry, and when the incremented counter reaches R the
component transitions to FAILED, every registered provided capability is
withdrawn (active cleared), its recorded process is sent SIGTERM, and the
counter is reset to zero. -/
theorem c5_health_restart_threshold (now result : Int) (comp : Component)
    (reg : Registry) (hstate : comp.state = CompState.degraded)
    (hres : result ≠ 0) :
    (comp.health_consecutive_failures + 1 < comp.health_restart_threshold →
       (handle_health_result now result comp reg).1.state =
           CompState.degraded ∧
       (handle_health_result now result comp reg).1.health_consecutive_failures
           = comp.health_consecutive_failures + 1 ∧
       (handle_health_result now result comp reg).2.1 = reg) ∧
    (comp.health_consecutive_failures + 1 ≥ comp.health_restart_threshold →
       (handle_health_result now result comp reg).1.state =
           CompState.failed ∧
       (handle_health_result now result comp reg).1.health_consecutive_failures
           = 0 ∧
       (comp.pid > 0 →
          (handle_health_result now result comp reg).2.2 = [comp.pid]) ∧
       (∀ cap ∈ comp.provides, (capability_index reg cap).isSome →
          capability_active (handle_health_result now result comp reg).2.1
            cap = false)) := by
  constructor
  · intro hlt
    have hnthr : ¬ (comp.health_consecutive_failures + 1 ≥
        comp.health_restart_threshold) := by omega
    simp [handle_health_result, hstate, hres, hnthr]
  · intro hthr
    have hred : handle_health_result now result comp reg =
        ({ comp with
             last_health_check := now, last_health_result := result,
             health_consecutive_failures := 0,
             state := CompState.failed, pid := -1 },
         comp.provides.foldl (fun r cap => capability_withdraw r cap) reg,
         if comp.pid > 0 then [comp.pid] else []) := by
      simp [handle_health_result, hstate, hres, hthr]
    rw [hred]
    refine ⟨rfl, rfl, ?_, ?_⟩
    · intro hpid
      simp [hpid]
    · intro cap hcap hsome
      exact active_foldWithdraw_mem comp.provides cap hcap reg hsome

/-- Witness for C5 at a concrete input: a DEGRADED component (pid 77,
counter 4, threshold 5) whose health check times out (result 2). -/
theorem c5_witness :
    (handle_health_result 9 2 degradedComponent exampleRegistry).1.state =
        CompState.failed ∧
    (handle_health_result 9 2 degradedComponent
        exampleRegistry).1.health_consecutive_failures = 0 ∧
    (handle_health_result 9 2 degradedComponent exampleRegistry).2.2 =
        [77] ∧
    capability_active
        (handle_health_result 9 2 degradedComponent exampleRegistry).2.1
        "cap.svc" = false := by
  have h := (c5_health_restart_threshold 9 2 degradedComponent
    exampleRegistry (by decide) (by decide)).2 (by decide)
  exact ⟨h.1, h.2.1, h.2.2.1 (by decide),
    h.2.2.2 "cap.svc" (by decide) (by decide)⟩

/-! DFS lemmas for cycle detection (C6)

`dfsLoop` is parameterized by the recursive entry `visit`, so each lemma
about the loop takes the corresponding facts about `visit` as hypotheses
and the `dfsVisit` versions follow by induction on the fuel. -/

theorem getD_of_length_le {α : Type _} :
    ∀ (l : List α) (k : Nat) (d : α), l.length ≤ k → l.getD k d = d := by
  intro l
  induction l with
  | nil => intro k d _; cases k <;> rfl
  | cons x xs ih =>
    intro k d h
    cases k with
    | zero => simp at h
    | succ n => simpa [List.getD] using ih n d (by simpa using h)

theorem getD_replicate {α : Type _} (a d : α) :
    ∀ (n k : Nat), (List.replicate n a).getD k d = if k < n then a else d := by
  intro n
  induction n with
  | zero => intro k; simp [List.replicate, List.getD]
  | succ m ih =>
    intro k
    cases k with
    | zero => simp [List.replicate]
    | succ j => simpa [List.replicate, List.getD] using ih j

theorem dfsLoop_length
    (visit : Nat → List DfsColor → List Nat → DfsResult)
    (hv : ∀ j colors path,
      ((visit j colors path).colors).length = colors.length)
    (adj : Nat → Nat → Bool) (i : Nat) :
    ∀ (js : List Nat) (colors : List DfsColor) (path : List Nat),
      ((dfsLoop visit adj i js colors path).colors).length =
        colors.length := by
  intro js
  induction js with
  | nil => intro colors path; simp [dfsLoop]
  | cons j rest ih =>
    intro colors path
    simp only [dfsLoop]
    by_cases hadj : adj i j
    · rw [if_pos hadj]
      cases hcol : colors.getD j DfsColor.black with
      | gray => rfl
      | white =>
        cases hr : (visit j colors path).cycle with
        | some c => simp [hr, hv]
        | none => simp [hr, ih, hv]
      | black => exact ih colors path
    · rw [if_neg hadj]
      exact ih colors path

theorem dfsVisit_length (adj : Nat → Nat → Bool) :
    ∀ (fuel i : Nat) (colors : List DfsColor) (path : List Nat),
      ((dfsVisit adj fuel i colors path).colors).length = colors.length := by
  intro fuel
  induction fuel with
  | zero => intro i colors path; rfl
  | succ f ih =>
    intro i colors path
    simp only [dfsVisit]
    rw [dfsLoop_length (dfsVisit adj f) (fun j c p => ih j c p) adj i]
    simp

theorem dfsLoop_preserve
    (visit : Nat → List DfsColor → List Nat → DfsResult)
    (hv : ∀ j colors path k,
      colors.getD k DfsColor.black ≠ DfsColor.white → k ≠ j →
      ((visit j colors path).colors).getD k DfsColor.black =
        colors.getD k DfsColor.black)
    (adj : Nat → Nat → Bool) (i : Nat) :
    ∀ (js : List Nat) (colors : List DfsColor) (path : List Nat) (k : Nat),
      colors.getD k DfsColor.black ≠ DfsColor.white → k ≠ i →
      ((dfsLoop visit adj i js colors path).colors).getD k DfsColor.black =
        colors.getD k DfsColor.black := by
  intro js
  induction js with
  | nil =>
    intro colors path k _ hki
    simp only [dfsLoop]
    exact getD_set_ne _ _ _ _ _ (fun h => hki h.symm)
  | cons j rest ih =>
    intro colors path k hk hki
    simp only [dfsLoop]
    by_cases hadj : adj i j
    · rw [if_pos hadj]
      cases hcol : colors.getD j DfsColor.black with
      | gray => rfl
      | white =>
        have hkj : k ≠ j := fun h => hk (by rw [h, hcol])
        have hpres := hv j colors path k hk hkj
        cases hr : (visit j colors path).cycle with
        | some c => simpa [hr] using hpres
        | none =>
          simp only [hr]
          rw [ih (visit j colors path).colors path k
            (by rw [hpres]; exact hk) hki]
          exact hpres
      | black => exact ih colors path k hk hki
    · rw [if_neg hadj]
      exact ih colors path k hk hki

theorem dfsVisit_preserve (adj : Nat → Nat → Bool) :
    ∀ (fuel j : Nat) (colors : List DfsColor) (path : List Nat) (k : Nat),
      colors.getD k DfsColor.black ≠ DfsColor.white → k ≠ j →
      ((dfsVisit adj fuel j colors path).colors).getD k DfsColor.black =
        colors.getD k DfsColor.black := by
  intro fuel
  induction fuel with
  | zero => intro j colors path k _ _; rfl
  | succ f ih =>
    intro j colors path k hk hkj
    simp only [dfsVisit]
    rw [dfsLoop_preserve (dfsVisit adj f) (fun a b c d => ih a b c d) adj j
      (List.range colors.length) (colors.set j DfsColor.gray)
      (path ++ [j]) k (by rw [getD_set_ne _ _ _ _ _
        (fun h => hkj h.symm)]; exact hk) hkj]
    exact getD_set_ne _ _ _ _ _ (fun h => hkj h.symm)

theorem dfsLoop_self
    (visit : Nat → List DfsColor → List Nat → DfsResult)
    (hv : ∀ j colors path k,
      colors.getD k DfsColor.black ≠ DfsColor.white → k ≠ j →
      ((visit j colors path).colors).getD k DfsColor.black =
        colors.getD k DfsColor.black)
    (adj : Nat → Nat → Bool) (i : Nat) (hself : adj i i = true) :
    ∀ (js : List Nat) (colors : List DfsColor) (path : List Nat),
      colors.getD i DfsColor.black = DfsColor.gray → i ∈ js →
      (dfsLoop visit adj i js colors path).cycle.isSome := by
  intro js
  induction js with
  | nil => intro colors path _ hmem; cases hmem
  | cons j rest ih =>
    intro colors path hgray hmem
    simp only [dfsLoop]
    by_cases hji : j = i
    · subst hji
      rw [if_pos hself]
      rw [hgray]
      simp
    · have hmem' : i ∈ rest := by
        rcases List.mem_cons.mp hmem with h | h
        · exact absurd h.symm hji
        · exact h
      by_cases hadj : adj i j
      · rw [if_pos hadj]
        cases hcol : colors.getD j DfsColor.black with
        | gray => simp
        | white =>
          have hpres := hv j colors path i
            (by rw [hgray]; intro hc; cases hc) (fun h => hji h.symm)
          cases hr : (visit j colors path).cycle with
          | some c => simp [hr]
          | none =>
            simp only [hr]
            exact ih (visit j colors path).colors path
              (by rw [hpres]; exact hgray) hmem'
        | black => exact ih colors path hgray hmem'
      · rw [if_neg hadj]
        exact ih colors path hgray hmem'

theorem dfsVisit_self (adj : Nat → Nat → Bool) (i : Nat)
    (hself : adj i i = true) :
    ∀ (fuel : Nat) (colors : List DfsColor) (path : List Nat),
      1 ≤ fuel → i < colors.length →
      (dfsVisit adj fuel i colors path).cycle.isSome := by
  intro fuel
  cases fuel with
  | zero => intro colors path h _; cases h
  | succ f =>
    intro colors path _ hlen
    simp only [dfsVisit]
    exact dfsLoop_self (dfsVisit adj f)
      (fun a b c d => dfsVisit_preserve adj f a b c d) adj i hself
      (List.range colors.length) (colors.set i DfsColor.gray) (path ++ [i])
      (getD_set_self _ _ _ _ hlen) (List.mem_range.mpr hlen)

theorem dfsLoop_no_black
    (visit : Nat → List DfsColor → List Nat → DfsResult)
    (hv_len : ∀ j colors path,
      ((visit j colors path).colors).length = colors.length)
    (s : Nat)
    (hv_R : ∀ j colors path, s < colors.length →
      colors.getD s DfsColor.black ≠ DfsColor.black →
      ((visit j colors path).cycle.isSome ∨
       ((visit j colors path).colors).getD s DfsColor.black ≠
         DfsColor.black))
    (adj : Nat → Nat → Bool) (i : Nat) (hi : i ≠ s) :
    ∀ (js : List Nat) (colors : List DfsColor) (path : List Nat),
      s < colors.length →
      colors.getD s DfsColor.black ≠ DfsColor.black →
      ((dfsLoop visit adj i js colors path).cycle.isSome ∨
       ((dfsLoop visit adj i js colors path).colors).getD s
           DfsColor.black ≠ DfsColor.black) := by
  intro js
  induction js with
  | nil =>
    intro colors path _ hs
    right
    simp only [dfsLoop]
    rw [getD_set_ne _ _ _ _ _ hi]
    exact hs
  | cons j rest ih =>
    intro colors path hlen hs
    simp only [dfsLoop]
    by_cases hadj : adj i j
    · rw [if_pos hadj]
      cases hcol : colors.getD j DfsColor.black with
      | gray => left; simp
      | white =>
        rcases hv_R j colors path hlen hs with hcyc | hcolfact
        · left
          cases hr : (visit j colors path).cycle with
          | some c => simp [hr]
          | none => rw [hr] at hcyc; cases hcyc
        · cases hr : (visit j colors path).cycle with
          | some c =>
            left
            simp [hr]
          | none =>
            simp only [hr]
            exact ih (visit j colors path).colors path
              (by rw [hv_len]; exact hlen) hcolfact
      | black => exact ih colors path hlen hs
    · rw [if_neg hadj]
      exact ih colors path hlen hs

theorem dfsVisit_no_black (adj : Nat → Nat → Bool) (s : Nat)
    (hself : adj s s = true) :
    ∀ (fuel j : Nat) (colors : List DfsColor) (path : List Nat),
      s < colors.length →
      colors.getD s DfsColor.black ≠ DfsColor.black →
      ((dfsVisit adj fuel j colors path).cycle.isSome ∨
       ((dfsVisit adj fuel j colors path).colors).getD s DfsColor.black ≠
         DfsColor.black) := by
  intro fuel
  induction fuel with
  | zero => intro j colors path _ hs; right; exact hs
  | succ f ih =>
    intro j colors path hlen hs
    by_cases hjs : j = s
    · subst hjs
      left
      exact dfsVisit_self adj j hself (f + 1) colors path
        (Nat.succ_le_succ (Nat.zero_le f)) hlen
    · simp only [dfsVisit]
      exact dfsLoop_no_black (dfsVisit adj f)
        (fun a b c => dfsVisit_length adj f a b c) s
        (fun a b c hl hb => ih a b c hl hb) adj j hjs
        (List.range colors.length) (colors.set j DfsColor.gray)
        (path ++ [j]) (by simpa using hlen)
        (by rw [getD_set_ne _ _ _ _ _ hjs]; exact hs)

theorem dfsLoop_no_new_gray
    (visit : Nat → List DfsColor → List Nat → DfsResult)
    (hv_G : ∀ j colors path, (visit j colors path).cycle = none →
      ∀ k, ((visit j colors path).colors).getD k DfsColor.black =
          DfsColor.gray →
        colors.getD k DfsColor.black = DfsColor.gray)
    (adj : Nat → Nat → Bool) (i : Nat) :
    ∀ (js : List Nat) (colors : List DfsColor) (path : List Nat),
      (dfsLoop visit adj i js colors path).cycle = none →
      ∀ k, k ≠ i →
        ((dfsLoop visit adj i js colors path).colors).getD k
            DfsColor.black = DfsColor.gray →
        colors.getD k DfsColor.black = DfsColor.gray := by
  intro js
  induction js with
  | nil =>
    intro colors path _ k hki hk
    simp only [dfsLoop] at hk
    rwa [getD_set_ne _ _ _ _ _ (fun h => hki h.symm)] at hk
  | cons j rest ih =>
    intro colors path hclean k hki hk
    simp only [dfsLoop] at hclean hk
    by_cases hadj : adj i j
    · rw [if_pos hadj] at hclean hk
      cases hcol : colors.getD j DfsColor.black with
      | gray => rw [hcol] at hclean; cases hclean
      | white =>
        rw [hcol] at hclean hk
        cases hr : (visit j colors path).cycle with
        | some c => simp [hr] at hclean
        | none =>
          rw [hr] at hclean hk
          exact hv_G j colors path hr k
            (ih (visit j colors path).colors path hclean k hki hk)
      | black =>
        rw [hcol] at hclean hk
        exact ih colors path hclean k hki hk
    · rw [if_neg hadj] at hclean hk
      exact ih colors path hclean k hki hk

theorem dfsLoop_blackens
    (visit : Nat → List DfsColor → List Nat → DfsResult)
    (hv_len : ∀ j colors path,
      ((visit j colors path).colors).length = colors.length)
    (adj : Nat → Nat → Bool) (i : Nat) :
    ∀ (js : List Nat) (colors : List DfsColor) (path : List Nat),
      i < colors.length →
      (dfsLoop visit adj i js colors path).cycle = none →
      ((dfsLoop visit adj i js colors path).colors).getD i
          DfsColor.black = DfsColor.black := by
  intro js
  induction js with
  | nil =>
    intro colors path hlen _
    simp only [dfsLoop]
    exact getD_set_self _ _ _ _ hlen
  | cons j rest ih =>
    intro colors path hlen hclean
    simp only [dfsLoop] at hclean ⊢
    by_cases hadj : adj i j
    · rw [if_pos hadj] at hclean ⊢
      cases hcol : colors.getD j DfsColor.black with
      | gray =>
        rw [hcol] at hclean
        simp at hclean
      | white =>
        rw [hcol] at hclean
        cases hr : (visit j colors path).cycle with
        | some c => simp [hr] at hclean
        | none =>
          rw [hr] at hclean
          exact ih (visit j colors path).colors path
            (by rw [hv_len]; exact hlen) hclean
      | black =>
        rw [hcol] at hclean
        exact ih colors path hlen hclean
    · rw [if_neg hadj] at hclean ⊢
      exact ih colors path hlen hclean

theorem dfsVisit_no_new_gray (adj : Nat → Nat → Bool) :
    ∀ (fuel j : Nat) (colors : List DfsColor) (path : List Nat),
      (dfsVisit adj fuel j colors path).cycle = none →
      ∀ k, ((dfsVisit adj fuel j colors path).colors).getD k
          DfsColor.black = DfsColor.gray →
        colors.getD k DfsColor.black = DfsColor.gray := by
  intro fuel
  induction fuel with
  | zero => intro j colors path _ k hk; exact hk
  | succ f ih =>
    intro j colors path hclean k hk
    simp only [dfsVisit] at hclean hk
    by_cases hkj : k = j
    · subst hkj
      by_cases hlen : k < colors.length
      · have hb := dfsLoop_blackens (dfsVisit adj f)
          (fun a b c => dfsVisit_length adj f a b c) adj k
          (List.range colors.length) (colors.set k DfsColor.gray)
          (path ++ [k]) (by simpa using hlen) hclean
        rw [hb] at hk
        cases hk
      · have hlen2 : ((dfsLoop (dfsVisit adj f) adj k
            (List.range colors.length) (colors.set k DfsColor.gray)
            (path ++ [k])).colors).length = colors.length := by
          rw [dfsLoop_length (dfsVisit adj f)
            (fun a b c => dfsVisit_length adj f a b c) adj k]
          simp
        rw [getD_of_length_le _ _ _ (by omega)] at hk
        cases hk
    · have := dfsLoop_no_new_gray (dfsVisit adj f)
        (fun a b c hcl k2 hk2 => ih a b c hcl k2 hk2) adj j
        (List.range colors.length) (colors.set j DfsColor.gray)
        (path ++ [j]) hclean k hkj hk
      rwa [getD_set_ne _ _ _ _ _ (fun h => hkj h.symm)] at this

theorem dfsLoop_report
    (visit : Nat → List DfsColor → List Nat → DfsResult)
    (hv_G : ∀ j colors path, (visit j colors path).cycle = none →
      ∀ k, ((visit j colors path).colors).getD k DfsColor.black =
          DfsColor.gray →
        colors.getD k DfsColor.black = DfsColor.gray)
    (hv_rep : ∀ j colors path c,
      (∀ k, colors.getD k DfsColor.black = DfsColor.gray → k ∈ path) →
      (visit j colors path).cycle = some c →
      ∃ p t, t ∈ p ∧ c = cycleReport p t)
    (adj : Nat → Nat → Bool) (i : Nat) :
    ∀ (js : List Nat) (colors : List DfsColor) (path : List Nat)
      (c : List Nat),
      (∀ k, colors.getD k DfsColor.black = DfsColor.gray → k ∈ path) →
      (dfsLoop visit adj i js colors path).cycle = some c →
      ∃ p t, t ∈ p ∧ c = cycleReport p t := by
  intro js
  induction js with
  | nil => intro colors path c _ h; simp [dfsLoop] at h
  | cons j rest ih =>
    intro colors path c hinv h
    simp only [dfsLoop] at h
    by_cases hadj : adj i j
    · rw [if_pos hadj] at h
      cases hcol : colors.getD j DfsColor.black with
      | gray =>
        rw [hcol] at h
        simp only [Option.some.injEq] at h
        exact ⟨path, j, hinv j hcol, h.symm⟩
      | white =>
        rw [hcol] at h
        cases hr : (visit j colors path).cycle with
        | some c' =>
          rw [hr] at h
          have h' : (visit j colors path).cycle = some c := h
          rw [hr] at h'
          have hcc : c' = c := by injection h'
          subst hcc
          exact hv_rep j colors path c' hinv hr
        | none =>
          rw [hr] at h
          refine ih (visit j colors path).colors path c ?_ h
          intro k hk
          exact hinv k (hv_G j colors path hr k hk)
      | black =>
        rw [hcol] at h
        exact ih colors path c hinv h
    · rw [if_neg hadj] at h
      exact ih colors path c hinv h

theorem dfsVisit_report (adj : Nat → Nat → Bool) :
    ∀ (fuel j : Nat) (colors : List DfsColor) (path : List Nat)
      (c : List Nat),
      (∀ k, colors.getD k DfsColor.black = DfsColor.gray → k ∈ path) →
      (dfsVisit adj fuel j colors path).cycle = some c →
      ∃ p t, t ∈ p ∧ c = cycleReport p t := by
  intro fuel
  induction fuel with
  | zero => intro j colors path c _ h; cases h
  | succ f ih =>
    intro j colors path c hinv h
    simp only [dfsVisit] at h
    refine dfsLoop_report (dfsVisit adj f)
      (fun a b cc hcl k hk => dfsVisit_no_new_gray adj f a b cc hcl k hk)
      (fun a b cc cy hin hcy => ih a b cc cy hin hcy) adj j
      (List.range colors.length) (colors.set j DfsColor.gray)
      (path ++ [j]) c ?_ h
    intro k hk
    by_cases hkj : k = j
    · subst hkj
      simp
    · rw [getD_set_ne _ _ _ _ _ (fun hh => hkj hh.symm)] at hk
      have := hinv k hk
      simp [this]

theorem detectFrom_self (adj : Nat → Nat → Bool) (fuel s : Nat)
    (hself : adj s s = true) (hfuel : 1 ≤ fuel) :
    ∀ (is : List Nat) (colors : List DfsColor),
      s ∈ is → s < colors.length →
      (∀ k, colors.getD k DfsColor.black ≠ DfsColor.gray) →
      colors.getD s DfsColor.black ≠ DfsColor.black →
      (detectFrom adj fuel is colors).isSome := by
  intro is
  induction is with
  | nil => intro colors hmem; cases hmem
  | cons i rest ih =>
    intro colors hmem hlen hnog hnb
    simp only [detectFrom]
    cases hcol : colors.getD i DfsColor.black with
    | white =>
      by_cases his : i = s
      · subst his
        have := dfsVisit_self adj i hself fuel colors [] hfuel hlen
        cases hr : (dfsVisit adj fuel i colors []).cycle with
        | some c => simp
        | none => rw [hr] at this; cases this
      · cases hr : (dfsVisit adj fuel i colors []).cycle with
        | some c => simp
        | none =>
          simp only [hr]
          have hsrest : s ∈ rest := by
            rcases List.mem_cons.mp hmem with h | h
            · exact absurd h.symm his
            · exact h
          refine ih (dfsVisit adj fuel i colors []).colors hsrest
            (by rw [dfsVisit_length]; exact hlen) ?_ ?_
          · intro k hk
            exact hnog k (dfsVisit_no_new_gray adj fuel i colors [] hr k hk)
          · rcases dfsVisit_no_black adj s hself fuel i colors [] hlen hnb
              with hc | hc
            · rw [hr] at hc; cases hc
            · exact hc
    | gray => exact absurd hcol (hnog i)
    | black =>
      have his : i ≠ s := by
        intro h
        rw [h] at hcol
        exact hnb hcol
      have hsrest : s ∈ rest := by
        rcases List.mem_cons.mp hmem with h | h
        · exact absurd h.symm his
        · exact h
      exact ih colors hsrest hlen hnog hnb

theorem detectFrom_report (adj : Nat → Nat → Bool) (fuel : Nat) :
    ∀ (is : List Nat) (colors : List DfsColor) (c : List Nat),
      (∀ k, colors.getD k DfsColor.black ≠ DfsColor.gray) →
      detectFrom adj fuel is colors = some c →
      ∃ p t, t ∈ p ∧ c = cycleReport p t := by
  intro is
  induction is with
  | nil => intro colors c _ h; simp [detectFrom] at h
  | cons i rest ih =>
    intro colors c hnog h
    simp only [detectFrom] at h
    cases hcol : colors.getD i DfsColor.black with
    | white =>
      rw [hcol] at h
      cases hr : (dfsVisit adj fuel i colors []).cycle with
      | some c' =>
        rw [hr] at h
        have hcc : c' = c := by injection h
        subst hcc
        exact dfsVisit_report adj fuel i colors [] c'
          (fun k hk => absurd hk (hnog k)) hr
      | none =>
        rw [hr] at h
        refine ih (dfsVisit adj fuel i colors []).colors c ?_ h
        intro k hk
        exact absurd (dfsVisit_no_new_gray adj fuel i colors [] hr k hk)
          (hnog k)
    | gray =>
      rw [hcol] at h
      exact ih colors c hnog h
    | black =>
      rw [hcol] at h
      exact ih colors c hnog h

theorem cycleReport_of_mem (p : List Nat) (t : Nat) (h : t ∈ p) :
    cycleReport p t = p.drop (p.indexOf t) ++ [t] := by
  unfold cycleReport
  cases hidx : p.indexOf? t with
  | none =>
    exact absurd (by simp : (t == t) = true)
      ((List.indexOf?_eq_none_iff.mp hidx) t h)
  | some k =>
    have : p.indexOf t = k := by
      rw [List.indexOf, List.findIdx_eq_findIdx?]
      rw [show p.indexOf? t = p.findIdx? (fun a => a == t) from rfl] at hidx
      rw [hidx]
    rw [this]

/-! C6: a self-providing requirement is a detected cycle -/

/-- C6: whenever some component of the table requires a capability that
it itself provides, `graph_detect_cycles` reports a cycle, and the cycle
report it returns is a suffix of the DFS stack: the stack from the first
entry of the back-edge target onward, plus the closing vertex. -/
theorem c6_self_dependency_cycle (comps : List Component)
    (h : ∃ i compn r, comps.get? i = some compn ∧
         r ∈ compn.requires ∧ r ∈ compn.provides) :
    ∃ c, graph_detect_cycles comps = some c ∧
      ∃ (stack : List Nat) (target : Nat), target ∈ stack ∧
        c = stack.drop (stack.indexOf target) ++ [target] := by
  obtain ⟨i, compn, r, hget, hreq, hprov⟩ := h
  have hlt : i < comps.length := by
    rcases List.get?_eq_some.mp hget with ⟨hl, _⟩
    exact hl
  have hself : dependsOn comps i i = true := by
    unfold dependsOn
    rw [hget]
    rw [List.any_eq_true]
    exact ⟨r, hreq, List.elem_eq_true_of_mem hprov⟩
  have hn : comps.length ≠ 0 := by omega
  have hsome : (graph_detect_cycles comps).isSome := by
    unfold graph_detect_cycles
    rw [if_neg hn]
    refine detectFrom_self (dependsOn comps) (comps.length + 1) i hself
      (by omega) (List.range comps.length)
      (List.replicate comps.length DfsColor.white)
      (List.mem_range.mpr hlt) (by simpa using hlt) ?_ ?_
    · intro k
      rw [getD_replicate]
      split <;> intro hc <;> cases hc
    · rw [getD_replicate, if_pos hlt]
      intro hc
      cases hc
  obtain ⟨c, hc⟩ := Option.isSome_iff_exists.mp hsome
  refine ⟨c, hc, ?_⟩
  have hrep : ∃ p t, t ∈ p ∧ c = cycleReport p t := by
    unfold graph_detect_cycles at hc
    rw [if_neg hn] at hc
    refine detectFrom_report (dependsOn comps) (comps.length + 1)
      (List.range comps.length)
      (List.replicate comps.length DfsColor.white) c ?_ hc
    intro k
    rw [getD_replicate]
    split <;> intro hx <;> cases hx
  obtain ⟨p, t, htp, hcr⟩ := hrep
  exact ⟨p, t, htp, by rw [hcr, cycleReport_of_mem p t htp]⟩

/-- Witness for C6 at a concrete table: a single component requiring the
capability it provides. -/
theorem c6_witness :
    ∃ c, graph_detect_cycles
        [{ baseComponent with
             requires := ["cap.self"], provides := ["cap.self"] }] =
        some c ∧
      ∃ (stack : List Nat) (target : Nat), target ∈ stack ∧
        c = stack.drop (stack.indexOf target) ++ [target] :=
  c6_self_dependency_cycle
    [{ baseComponent with
         requires := ["cap.self"], provides := ["cap.self"] }]
    ⟨0, { baseComponent with
            requires := ["cap.self"], provides := ["cap.self"] },
     "cap.self", rfl, by simp, by simp⟩

end Yakiros
